import Mathlib

/-!
Verification of the pack-generation and pack-index core of gitoxide
(crates `git-odb` and `git-path`), as a shallow embedding in Lean.

The embedding follows the source files:
* `git-odb/src/pack/data/output/objects_to_entries.rs`
* `git-odb/src/pack/index/write/mod.rs`
* `git-path/src/realpath.rs`

Code of the repository that is referenced but not part of the sources at
hand (the delta forest `pack::tree::Tree`, the index encoder, the pack
entry parser `pack::data::Entry::from_bytes`, the `git-traverse` breadth
first tree walk and the `git-features` parallel dispatcher) is modelled
from the specification; each such definition carries a doc comment that
starts with "Modelled from the spec".
-/

namespace Gitoxide

/-- Object identifiers are fixed-width content hashes, totally ordered by
byte value; they are modelled as natural numbers. -/
abbrev ObjectId := Nat

/-- The four git object kinds (`git_object::Kind`). -/
inductive Kind where
  | blob
  | tree
  | commit
  | tag
deriving DecidableEq, Repr

/-- Pack data versions (`pack::data::Version`); only V2 is produced. -/
inductive Version where
  | v2
  | v3
deriving DecidableEq, Repr

/-! ## The chunking iterator (`util::Chunks` in `objects_to_entries.rs`) -/

/-- Modulus of the machine word used for the chunk counter (`usize`). -/
def usizeMod : Nat := 2 ^ 64

/-- One run of the inner `while let` loop of `Chunks::next`: items are taken
from the input, the counter `itemsLeft` is decremented with wrap-around
exactly as a release-mode `usize` subtraction would, and the run stops when
the counter reaches zero or the input is exhausted.  The function returns
the chunk together with the remaining input. -/
def chunkStep (itemsLeft : Nat) : List α → List α × List α
  | [] => ([], [])
  | x :: xs =>
    let left := (itemsLeft + (usizeMod - 1)) % usizeMod
    if left = 0 then ([x], xs)
    else ((x :: (chunkStep left xs).1), (chunkStep left xs).2)

theorem chunkStep_eq_take_drop (k : Nat) (hk : 1 ≤ k) (hk2 : k < usizeMod)
    (l : List α) : chunkStep k l = (l.take k, l.drop k) := by
  induction l generalizing k with
  | nil => simp [chunkStep]
  | cons x xs ih =>
    have hmod : (k + (usizeMod - 1)) % usizeMod = k - 1 := by
      have h : k + (usizeMod - 1) = (k - 1) + 1 * usizeMod := by
        simp only [usizeMod]; omega
      rw [h, Nat.add_mul_mod_self_right]
      exact Nat.mod_eq_of_lt (by omega)
    simp only [chunkStep, hmod]
    split
    · have hk1 : k = 1 := by omega
      simp [hk1]
    · have hk1 : 2 ≤ k := by omega
      rw [ih (k - 1) (by omega) (by omega)]
      obtain ⟨m, rfl⟩ : ∃ m, k = m + 1 := ⟨k - 1, by omega⟩
      simp

theorem chunkStep_snd_length (l : List α) (k : Nat) (hl : l ≠ []) :
    (chunkStep k l).2.length < l.length := by
  cases l with
  | nil => simp at hl
  | cons x xs =>
    simp only [chunkStep]
    split
    · simp
    · next h =>
      have h1 : 1 ≤ (k + (usizeMod - 1)) % usizeMod := by omega
      have h2 : (k + (usizeMod - 1)) % usizeMod < usizeMod :=
        Nat.mod_lt _ (by simp [usizeMod])
      rw [chunkStep_eq_take_drop _ h1 h2]
      simp only [List.length_drop, List.length_cons]
      omega

/-- The sequence of chunks produced by repeatedly calling `Chunks::next`
until the input iterator is exhausted (`next` returns `None` exactly when
the produced chunk is empty, which happens exactly when the input is
empty). -/
def chunksList (size : Nat) : List α → List (List α)
  | [] => []
  | x :: xs =>
    (chunkStep size (x :: xs)).1 :: chunksList size (chunkStep size (x :: xs)).2
termination_by l => l.length
decreasing_by
  exact chunkStep_snd_length (x :: xs) size (by simp)

theorem chunksList_cons (size : Nat) (hs : 1 ≤ size) (hs2 : size < usizeMod)
    (x : α) (xs : List α) :
    chunksList size (x :: xs) =
      (x :: xs).take size :: chunksList size ((x :: xs).drop size) := by
  rw [chunksList, chunkStep_eq_take_drop size hs hs2]

theorem chunksList_eq_nil_iff (n : Nat) (l : List α) :
    chunksList n l = [] ↔ l = [] := by
  cases l with
  | nil => simp [chunksList]
  | cons x xs => rw [chunksList]; simp

theorem chunksList_props (n : Nat) (hn : 1 ≤ n) (hn2 : n < usizeMod)
    (l : List α) :
    (∀ c ∈ chunksList n l, c ≠ [] ∧ c.length ≤ n) ∧
    (∀ c ∈ (chunksList n l).dropLast, c.length = n) ∧
    (chunksList n l).flatten = l := by
  suffices h : ∀ (len : Nat) (l : List α), l.length ≤ len →
      (∀ c ∈ chunksList n l, c ≠ [] ∧ c.length ≤ n) ∧
      (∀ c ∈ (chunksList n l).dropLast, c.length = n) ∧
      (chunksList n l).flatten = l from h l.length l le_rfl
  intro len
  induction len with
  | zero =>
    intro l hl
    have hnil : l = [] := by cases l <;> simp_all
    subst hnil
    simp [chunksList]
  | succ m ih =>
    intro l hl
    cases l with
    | nil => simp [chunksList]
    | cons x xs =>
      rw [chunksList_cons n hn hn2]
      have hdrop : ((x :: xs).drop n).length ≤ m := by
        have hlen : (x :: xs).length ≤ m + 1 := hl
        simp only [List.length_drop]
        simp only [List.length_cons] at hlen
        omega
      obtain ⟨ih1, ih2, ih3⟩ := ih ((x :: xs).drop n) hdrop
      refine ⟨?_, ?_, ?_⟩
      · intro c hc
        rcases List.mem_cons.mp hc with h | h
        · subst h
          constructor
          · intro hEq
            have hLen := congrArg List.length hEq
            simp only [List.length_take, List.length_cons, List.length_nil]
              at hLen
            omega
          · simp
        · exact ih1 c h
      · intro c hc
        by_cases hrest : chunksList n ((x :: xs).drop n) = []
        · rw [hrest] at hc
          simp at hc
        · rw [List.dropLast_cons_of_ne_nil hrest] at hc
          rcases List.mem_cons.mp hc with h | h
          · subst h
            have hlong : ¬(x :: xs).drop n = [] :=
              fun h0 => hrest ((chunksList_eq_nil_iff n _).mpr h0)
            have : n < (x :: xs).length := by
              by_contra hle
              exact hlong (List.drop_eq_nil_of_le (by omega))
            simp only [List.length_take]
            omega
          · exact ih2 c h
      · rw [List.flatten_cons, ih3, List.take_append_drop]

/-- Claim C10: for every chunk size n with 1 ≤ n (and n a valid usize), the
Chunks iterator yields only non-empty chunks of at most n items, every chunk
except possibly the last has exactly n items, and the concatenation of the
chunks is the input sequence in order. -/
theorem c10_chunks_iterator (n : Nat) (hn : 1 ≤ n) (hn2 : n < usizeMod)
    (l : List Nat) :
    (∀ c ∈ chunksList n l, c ≠ [] ∧ c.length ≤ n) ∧
    (∀ c ∈ (chunksList n l).dropLast, c.length = n) ∧
    (chunksList n l).flatten = l :=
  chunksList_props n hn hn2 l

/-- Witness for C10 at n = 2 on a five-element input. -/
theorem c10_chunks_iterator_witness :
    (chunksList 2 [1, 2, 3, 4, 5]).flatten = [1, 2, 3, 4, 5] :=
  (c10_chunks_iterator 2 (by decide) (by norm_num [usizeMod]) [1, 2, 3, 4, 5]).2.2

/-! ## Path resolution (`git-path/src/realpath.rs`) -/

/-- A single path component, as produced by `std::path::Components` on a
unix platform (prefix components do not occur there). -/
inductive Component where
  | rootDir
  | curDir
  | parentDir
  | normal (s : String)
deriving DecidableEq, Repr

/-- A path is a sequence of components. -/
abbrev RPath := List Component

/-- The filesystem as seen through `Path::is_symlink` and `fs::read_link`:
a path maps to `some target` exactly when it is a symlink with that target. -/
abbrev SymlinkFs := RPath → Option RPath

/-- The error type of `realpath` (`realpath::Error`).  `readLink` cannot
occur in this model because `read_link` is total on the paths the model
marks as symlinks. -/
inductive RealpathError where
  | maxSymlinksExceeded (maxSymlinks : Nat)
  | readLink
  | emptyPath
  | missingParent (path : RPath)
deriving DecidableEq, Repr

/-- `PathBuf::push` of a single component: pushing the root replaces the
whole buffer (an absolute path replaces on push), anything else appends. -/
def pushComp (p : RPath) (c : Component) : RPath :=
  if c = Component.rootDir then [Component.rootDir] else p ++ [c]

/-- `PathBuf::pop` and `Path::parent`: both fail exactly on the root and on
the empty path, and otherwise remove the last component. -/
def parentPath (p : RPath) : Option RPath :=
  if p = [] ∨ p = [Component.rootDir] then none else some p.dropLast

/-- `Path::is_relative`: true unless the path starts with the root. -/
def isRelative : RPath → Bool
  | Component.rootDir :: _ => false
  | _ => true

/-- Modulus of the u8 hop counter of `realpath` (`num_symlinks` and
`max_symlinks` are both u8 in the source). -/
def u8Mod : Nat := 2 ^ 8

/-- The recursive `traverse` helper inside `realpath`.  The symlink branch
re-enters with the resolved target and the remaining input spliced onto
it and with the hop counter increased; the counter and the bound are u8
values in the source, so the increment wraps at 256 exactly as a
release-mode u8 addition would (a debug build panics on that overflow
instead - either way the error cannot fire past the wrap).  Because the
wrapped counter can stay at or below the bound forever, the source
recursion is genuinely unbounded: on a symlink cycle with the bound 255
it never stops.  `fuel` is a modelling device that makes the embedding
total; `none` means the computation is still running when the fuel runs
out, so a run that is `none` for every fuel is a run of the program that
never terminates. -/
def traverse (fs : SymlinkFs) (maxSymlinks : Nat) :
    Nat → RPath → Nat → RPath → Option (Except RealpathError RPath)
  | 0, _, _, _ => none
  | fuel + 1, input, num, realPath =>
    match input with
    | [] => some (.ok realPath)
    | Component.rootDir :: rest =>
        traverse fs maxSymlinks fuel rest num
          (pushComp realPath Component.rootDir)
    | Component.curDir :: rest =>
        traverse fs maxSymlinks fuel rest num realPath
    | Component.parentDir :: rest =>
        match parentPath realPath with
        | none => some (.error (.missingParent realPath))
        | some r => traverse fs maxSymlinks fuel rest num r
    | Component.normal s :: rest =>
        match fs (realPath ++ [Component.normal s]) with
        | some target =>
            if maxSymlinks < (num + 1) % u8Mod then
              some (.error (.maxSymlinksExceeded maxSymlinks))
            else if isRelative target then
              match parentPath (realPath ++ [Component.normal s]) with
              | none =>
                  some (.error
                    (.missingParent (realPath ++ [Component.normal s])))
              | some r =>
                  traverse fs maxSymlinks fuel (target ++ rest)
                    ((num + 1) % u8Mod) r
            else
              traverse fs maxSymlinks fuel (target ++ rest)
                ((num + 1) % u8Mod) [Component.rootDir]
        | none =>
            traverse fs maxSymlinks fuel rest num
              (realPath ++ [Component.normal s])

/-- The function `realpath(path, cwd, max_symlinks)`, under the fuel
bound of the embedding. -/
def realpath (fs : SymlinkFs) (path cwd : RPath) (maxSymlinks fuel : Nat) :
    Option (Except RealpathError RPath) :=
  if path = [] then some (.error .emptyPath)
  else traverse fs maxSymlinks fuel path 0
    (if isRelative path then cwd else [])

theorem parentPath_concat (l : RPath) (s : String) :
    parentPath (l ++ [Component.normal s]) = some l := by
  unfold parentPath
  rw [if_neg]
  · simp
  · intro h
    rcases h with h | h
    · simp at h
    · cases l <;> simp_all

theorem traverse_selfloop_error (fs : SymlinkFs) (cwd : RPath) (s : String)
    (maxSymlinks : Nat) (hmax : maxSymlinks ≤ 254)
    (hfs : fs (cwd ++ [Component.normal s]) = some [Component.normal s]) :
    ∀ fuel num, num ≤ maxSymlinks → maxSymlinks + 1 - num ≤ fuel →
      traverse fs maxSymlinks fuel [Component.normal s] num cwd =
        some (.error (.maxSymlinksExceeded maxSymlinks)) := by
  intro fuel
  induction fuel with
  | zero => intro num h1 h2; omega
  | succ f ih =>
    intro num h1 h2
    have hm : (num + 1) % u8Mod = num + 1 :=
      Nat.mod_eq_of_lt (by simp only [u8Mod]; omega)
    simp only [traverse, hfs, hm]
    by_cases hc : maxSymlinks < num + 1
    · rw [if_pos hc]
    · rw [if_neg hc, if_pos (by simp [isRelative]), parentPath_concat]
      simpa using ih (num + 1) (by omega) (by omega)

theorem traverse_selfloop_wrap (fs : SymlinkFs) (cwd : RPath) (s : String)
    (hfs : fs (cwd ++ [Component.normal s]) = some [Component.normal s]) :
    ∀ fuel num, traverse fs 255 fuel [Component.normal s] num cwd = none := by
  intro fuel
  induction fuel with
  | zero => intro num; rfl
  | succ f ih =>
    intro num
    have hm : (num + 1) % u8Mod < u8Mod := Nat.mod_lt _ (by simp [u8Mod])
    simp only [traverse, hfs]
    rw [if_neg (by simp only [u8Mod] at hm ⊢; omega),
      if_pos (by simp [isRelative]), parentPath_concat]
    simpa using ih ((num + 1) % u8Mod)

/-- Claim C9 as amended: on a filesystem where the path `cwd/s` is a
symlink whose target is the relative path `s` (a one-hop symlink cycle),
`realpath` applied to the relative path `s` under `cwd` returns the
MaxSymlinksExceeded error for every hop bound up to 254 (every u8 bound
but the last), as soon as the fuel covers the hops needed: the u8 hop
counter is incremented on every symlink traversal and the error fires
once it exceeds `maxSymlinks`.  At the u8 boundary 255 the wrapped
counter can never exceed the bound and the resolution diverges (see the
counterexample). -/
theorem c9_realpath_cycle_u8 (fs : SymlinkFs) (cwd : RPath) (s : String)
    (maxSymlinks fuel : Nat) (hmax : maxSymlinks ≤ 254)
    (hfuel : maxSymlinks + 1 ≤ fuel)
    (hfs : fs (cwd ++ [Component.normal s]) = some [Component.normal s]) :
    realpath fs [Component.normal s] cwd maxSymlinks fuel =
      some (.error (.maxSymlinksExceeded maxSymlinks)) := by
  unfold realpath
  rw [if_neg (by simp), if_pos (by simp [isRelative])]
  exact traverse_selfloop_error fs cwd s maxSymlinks hmax hfs fuel 0
    (by omega) (by omega)

/-- The concrete one-hop cycle /x/a -> a. -/
def c9fs : SymlinkFs := fun p =>
  if p = [Component.rootDir, Component.normal "x", Component.normal "a"]
  then some [Component.normal "a"] else none

def c9cwd : RPath := [Component.rootDir, Component.normal "x"]

/-- Witness for C9 (amended): the concrete cycle at /x/a with a hop
bound of 4 and fuel 5. -/
theorem c9_realpath_cycle_u8_witness :
    realpath c9fs [Component.normal "a"] c9cwd 4 5 =
      some (.error (.maxSymlinksExceeded 4)) :=
  c9_realpath_cycle_u8 c9fs c9cwd "a" 4 5 (by decide) (by decide) (by rfl)

/-- The resolution diverges: no amount of fuel completes the run. -/
def divergesOn (fs : SymlinkFs) (path cwd : RPath) (maxSymlinks : Nat) :
    Prop :=
  ∀ fuel, realpath fs path cwd maxSymlinks fuel = none

/-- Counterexample to claim C9 as stated: at the u8 boundary
`max_symlinks = 255`, the wrapped hop counter can never exceed the bound,
so on the concrete one-hop cycle /x/a -> a the resolution never returns
MaxSymlinksExceeded - or anything else: it loops forever (in a debug
build the overflow panics instead; either way the claimed error is never
returned and, in release mode, the loop never ends). -/
theorem c9_u8_wrap_counterexample :
    c9fs (c9cwd ++ [Component.normal "a"]) = some [Component.normal "a"] ∧
    divergesOn c9fs [Component.normal "a"] c9cwd 255 := by
  refine ⟨rfl, ?_⟩
  intro fuel
  unfold realpath
  rw [if_neg (by simp), if_pos (by simp [isRelative])]
  exact traverse_selfloop_wrap c9fs c9cwd "a" rfl fuel 0

/-! ## Pack generation: objects to entries
(`git-odb/src/pack/data/output/objects_to_entries.rs`) -/

/-- One tree entry: a (name, mode, identifier) triple; the mode is
abstracted to whether the entry points at a sub-tree.  Modelled from the
spec (data model): the tree parser itself (`git_object::immutable`) is not
among the sources, so tree bytes are represented by their parse. -/
structure TEnt where
  name : String
  isTree : Bool
  oid : ObjectId
deriving DecidableEq, Repr

/-- A decompressed object as returned by the database
(`crate::data::Object`): its kind and raw bytes, together with the parsed
views the pipeline reads from those bytes - the tree entries when the
object is a tree, and the root tree identifier when it is a commit
(`into_commit_iter().tree_id()`). -/
structure Obj where
  kind : Kind
  data : List Nat
  treeEntries : List TEnt
  commitTree : ObjectId
deriving DecidableEq, Repr

/-- A stored pack entry as returned by `db.pack_entry` (spec 6.1):
pre-compressed pack bytes with their version and optional CRC32. -/
structure StoredEntry where
  version : Version
  data : List Nat
  crc32 : Option Nat
deriving DecidableEq, Repr

/-- The object database interface the pipeline consumes (spec 6.1):
`find` returns the object for an identifier (`none` means not found) and
`pack_entry` optionally returns the stored pack entry of an object.  The
scratch buffer, decode cache and the error channel of `find` are not
observable at this level and are omitted. -/
structure Db where
  find : ObjectId → Option Obj
  packEntry : Obj → Option StoredEntry

/-- The byte-level helpers of entry materialisation, abstracted: `crc32`
is the one-shot CRC (`git_features::hash::crc32`) and `deflate` the
black-box compressor; the claims hold for every choice. -/
structure GenEnv where
  crc32 : List Nat → Nat
  deflate : List Nat → List Nat

/-- The kind of a produced entry (`output::entry::Kind`); this pipeline
only ever produces bases. -/
inductive OutKind where
  | base
deriving DecidableEq, Repr

/-- A produced pack entry (`output::Entry`): source identifier, object
kind, entry kind, decompressed size and compressed payload. -/
structure OutEntry where
  id : ObjectId
  object_kind : Kind
  kind : OutKind
  decompressed_size : Nat
  compressed_data : List Nat
deriving DecidableEq, Repr

/-- The error type of the pipeline (`objects_to_entries::Error`), plus
two modelling devices: `unimplementedExpansion` stands for the `todo!`
panic of the unimplemented expansion mode, and `modelFuelExhausted` for
exhaustion of the fuel that makes the two source loops (commit descent
and tree walk) total in the embedding; on the databases the claims are
about, the fuel never runs out. -/
inductive GenError where
  | locate
  | treeTraverse
  | notFound (oid : ObjectId)
  | packToPackCopyCrc32Mismatch (actual expected : Nat)
  | newEntry
  | unimplementedExpansion
  | modelFuelExhausted
deriving DecidableEq, Repr

/-- The parse of a stored entry header, as far as `obj_to_entry` reads
it: a base with its kind, a delta, or an unparseable header. -/
inductive ParsedHeader where
  | base (k : Kind)
  | ofsDelta
  | refDelta
  | invalid
deriving DecidableEq, Repr

/-- Modelled from the spec (6.2): the byte length of a base-128
variable-length integer - one byte, plus continuation bytes while the
high bit is set. -/
def varintLen : List Nat → Option Nat
  | [] => none
  | b :: bs => if b < 128 then some 1 else (varintLen bs).map (· + 1)

/-- Modelled from the spec (6.2 pack data format):
`pack::data::Entry::from_bytes` parses the variable-length header - the
kind sits in bits 6..4 of the first byte, the size continues while the
high bit is set, an offset delta is followed by a second varint and a
reference delta by a 20-byte identifier - and returns the header with the
payload offset.  Unparseable headers are marked invalid and never take
the fast path (the source cannot encounter them on the inputs considered
here). -/
def entryFromBytes (data : List Nat) : ParsedHeader × Nat :=
  match data with
  | [] => (ParsedHeader.invalid, 0)
  | b0 :: _ =>
    match varintLen data with
    | none => (ParsedHeader.invalid, 0)
    | some n =>
      if b0 / 16 % 8 = 1 then (ParsedHeader.base Kind.commit, n)
      else if b0 / 16 % 8 = 2 then (ParsedHeader.base Kind.tree, n)
      else if b0 / 16 % 8 = 3 then (ParsedHeader.base Kind.blob, n)
      else if b0 / 16 % 8 = 4 then (ParsedHeader.base Kind.tag, n)
      else if b0 / 16 % 8 = 6 then
        match varintLen (data.drop n) with
        | none => (ParsedHeader.invalid, 0)
        | some m => (ParsedHeader.ofsDelta, n + m)
      else if b0 / 16 % 8 = 7 then (ParsedHeader.refDelta, n + 20)
      else (ParsedHeader.invalid, 0)

/-- Modelled from the spec (4.3 slow path): `output::Entry::from_data`
compresses the object bytes and emits a fresh base entry with the object
kind, the decompressed size and the compressed bytes. -/
def OutEntry.fromData (env : GenEnv) (id : ObjectId) (obj : Obj) : OutEntry :=
  ⟨id, obj.kind, OutKind.base, obj.data.length, env.deflate obj.data⟩

/-- The emit step of the fast path of `obj_to_entry`, after the CRC
check: a stored base is copied with its payload starting at the parsed
payload offset; a stored delta falls back to a fresh entry. -/
def objToEntryEmit (env : GenEnv) (id : ObjectId) (obj : Obj)
    (entry : StoredEntry) : Except GenError OutEntry :=
  match (entryFromBytes entry.data).1 with
  | ParsedHeader.base k =>
      .ok ⟨id, k, OutKind.base, obj.data.length,
        entry.data.drop (entryFromBytes entry.data).2⟩
  | _ => .ok (OutEntry.fromData env id obj)

/-- The entry materialiser `obj_to_entry`: when the database holds a
stored pack entry of the same target version, its stored CRC32 (when
present) must match a freshly computed CRC32 over the stored bytes -
mismatch is a hard error - and a stored base is then copied through;
everything else goes through `from_data`. -/
def objToEntry (env : GenEnv) (db : Db) (version : Version) (id : ObjectId)
    (obj : Obj) : Except GenError OutEntry :=
  match db.packEntry obj with
  | some entry =>
    if entry.version = version then
      match entry.crc32 with
      | some expected =>
        if env.crc32 entry.data = expected then objToEntryEmit env id obj entry
        else .error (.packToPackCopyCrc32Mismatch (env.crc32 entry.data) expected)
      | none => objToEntryEmit env id obj entry
    else .ok (OutEntry.fromData env id obj)
  | none => .ok (OutEntry.fromData env id obj)

/-- Insertion into the seen set, kept as a duplicate-free list in
first-insertion order (the contents of the `AllUnseen.objects` hash set,
in breadth-first discovery order). -/
def insertNew (l : List ObjectId) (x : ObjectId) : List ObjectId :=
  if x ∈ l then l else l ++ [x]

/-- Visiting the entries of one tree: `AllUnseen.visit_tree` and
`visit_nontree` both insert the referenced identifier into the set and
continue. -/
def visitEntries (ents : List TEnt) (acc : List ObjectId) : List ObjectId :=
  ents.foldl (fun a e => insertNew a e.oid) acc

/-- The sub-tree identifiers of a tree, in entry order; these are
enqueued for the breadth-first walk. -/
def subtreeIds (ents : List TEnt) : List ObjectId :=
  (ents.filter (fun e => e.isTree)).map (fun e => e.oid)

/-- Modelled from the spec (4.2 tree traversal): the breadth-first walk
over tree bytes (`git_traverse::tree::breadthfirst`).  The queue holds
tree identifiers to expand; every referenced identifier goes into the
seen set; a failing lookup of a queued tree is a traversal error.  The
walk terminates on every acyclic object graph; `fuel` additionally bounds
it so the embedding is total even on cyclic databases, on which the
source would not terminate. -/
def bfsRun (lookup : ObjectId → Option (List TEnt)) :
    Nat → List ObjectId → List ObjectId → Except GenError (List ObjectId)
  | _, [], acc => .ok acc
  | 0, _ :: _, _ => .error .modelFuelExhausted
  | fuel + 1, t :: q, acc =>
    match lookup t with
    | none => .error .treeTraverse
    | some ents => bfsRun lookup fuel (q ++ subtreeIds ents) (visitEntries ents acc)

/-- The tree-bytes lookup closure passed to the walk: the root identifier
resolves to the bytes of the object at hand, anything else goes through
`find_existing_tree_iter` (found and a tree, else a failure the walk
turns into an error). -/
def lookupTree (db : Db) (rootId : ObjectId) (rootEnts : List TEnt)
    (oid : ObjectId) : Option (List TEnt) :=
  if oid = rootId then some rootEnts
  else
    match db.find oid with
    | some o => if o.kind = Kind.tree then some o.treeEntries else none
    | none => none

/-- The emission loop over the collected identifiers (the iteration of
`delegate.objects`): each discovered identifier is looked up and
materialised under its own identifier. -/
def emitDiscovered (env : GenEnv) (db : Db) (version : Version) :
    List ObjectId → Except GenError (List OutEntry)
  | [] => .ok []
  | i :: is =>
    match db.find i with
    | none => .error (.notFound i)
    | some o =>
      match objToEntry env db version i o with
      | .error e => .error e
      | .ok e =>
        match emitDiscovered env db version is with
        | .error e2 => .error e2
        | .ok es => .ok (e :: es)

/-- The expansion mode (`ObjectExpansion`). -/
inductive ObjectExpansion where
  | asIs
  | treeContents
  | treeAdditionsComparedToAncestor
deriving DecidableEq, Repr

/-- The loop of the TreeContents arm: one entry is pushed for the object
at hand - always under the original input identifier `id`, which the
source never rebinds - then a tree is walked breadth-first and its
discovered objects are emitted, a commit hops to its root tree and
continues, and a blob or tag stops.  `fuelC` bounds the commit descent
(unbounded in the source only when the database answers a tree lookup
with another commit), `fuelB` bounds the walk, and `enumSet` supplies the
iteration order of the hash set of discovered identifiers, which the std
HashSet of the source leaves unspecified. -/
def treeContentsLoop (env : GenEnv) (db : Db) (version : Version)
    (enumSet : List ObjectId → List ObjectId) (id : ObjectId)
    (fuelB : Nat) : Nat → Obj → Except GenError (List OutEntry)
  | fuelC, obj =>
    match objToEntry env db version id obj with
    | .error e => .error e
    | .ok e =>
      match obj.kind with
      | Kind.tree =>
        match bfsRun (lookupTree db id obj.treeEntries) fuelB [id] [] with
        | .error e2 => .error e2
        | .ok objs =>
          match emitDiscovered env db version (enumSet objs) with
          | .error e3 => .error e3
          | .ok es => .ok (e :: es)
      | Kind.commit =>
        match db.find obj.commitTree with
        | none => .error (.notFound obj.commitTree)
        | some obj2 =>
          match fuelC with
          | 0 => .error .modelFuelExhausted
          | fc + 1 =>
            match treeContentsLoop env db version enumSet id fuelB fc obj2 with
            | .error e4 => .error e4
            | .ok rest => .ok (e :: rest)
      | Kind.blob => .ok [e]
      | Kind.tag => .ok [e]

/-- The per-chunk worker closure of `objects_to_entries_iter`: each
identifier of the chunk is fetched and expanded according to the mode,
and the produced entries of all iterations accumulate into one output
vector; the first error aborts the chunk. -/
def processChunk (env : GenEnv) (db : Db) (version : Version)
    (mode : ObjectExpansion) (enumSet : List ObjectId → List ObjectId)
    (fuelC fuelB : Nat) : List ObjectId → Except GenError (List OutEntry)
  | [] => .ok []
  | id :: rest =>
    match db.find id with
    | none => .error (.notFound id)
    | some obj =>
      match mode with
      | ObjectExpansion.treeAdditionsComparedToAncestor =>
          .error .unimplementedExpansion
      | ObjectExpansion.treeContents =>
        match treeContentsLoop env db version enumSet id fuelB fuelC obj with
        | .error e => .error e
        | .ok es =>
          match processChunk env db version mode enumSet fuelC fuelB rest with
          | .error e2 => .error e2
          | .ok more => .ok (es ++ more)
      | ObjectExpansion.asIs =>
        match objToEntry env db version id obj with
        | .error e => .error e
        | .ok e =>
          match processChunk env db version mode enumSet fuelC fuelB rest with
          | .error e2 => .error e2
          | .ok more => .ok (e :: more)

/-- Modelled from the spec (§4.1 dispatcher, §5 ordering): the parallel
dispatcher cuts the input into chunks and yields the per-chunk results in
input chunk order; flattening the per-chunk entry vectors gives the
emitted entry sequence; a failing chunk fails the stream. -/
def processChunks (env : GenEnv) (db : Db) (version : Version)
    (mode : ObjectExpansion) (enumSet : List ObjectId → List ObjectId)
    (fuelC fuelB : Nat) : List (List ObjectId) → Except GenError (List OutEntry)
  | [] => .ok []
  | c :: cs =>
    match processChunk env db version mode enumSet fuelC fuelB c with
    | .error e => .error e
    | .ok es =>
      match processChunks env db version mode enumSet fuelC fuelB cs with
      | .error e2 => .error e2
      | .ok more => .ok (es ++ more)

/-- The whole pipeline `objects_to_entries_iter`: the input identifier
stream is cut into chunks by the Chunks iterator, each chunk is processed
by the worker closure, and the results are concatenated in input order. -/
def objectsToEntries (env : GenEnv) (db : Db) (version : Version)
    (mode : ObjectExpansion) (enumSet : List ObjectId → List ObjectId)
    (fuelC fuelB chunkSize : Nat) (oids : List ObjectId) :
    Except GenError (List OutEntry) :=
  processChunks env db version mode enumSet fuelC fuelB
    (chunksList chunkSize oids)

theorem objToEntry_id (env : GenEnv) (db : Db) (version : Version)
    (id : ObjectId) (obj : Obj) (e : OutEntry)
    (h : objToEntry env db version id obj = .ok e) : e.id = id := by
  unfold objToEntry objToEntryEmit OutEntry.fromData at h
  repeat' split at h
  all_goals simp_all
  all_goals (obtain rfl := h; rfl)

theorem emitDiscovered_ok (env : GenEnv) (db : Db) (version : Version)
    (l : List ObjectId)
    (h : ∀ i ∈ l, ∃ o e, db.find i = some o ∧
      objToEntry env db version i o = .ok e) :
    ∃ es, emitDiscovered env db version l = .ok es ∧
      es.map (fun e => e.id) = l := by
  induction l with
  | nil => exact ⟨[], rfl, rfl⟩
  | cons i is ih =>
    obtain ⟨o, e, hfind, hok⟩ := h i (by simp)
    obtain ⟨es, hes, hmap⟩ := ih (fun j hj => h j (by simp [hj]))
    refine ⟨e :: es, ?_, ?_⟩
    · unfold emitDiscovered
      simp only [hfind, hok, hes]
    · simp [hmap, objToEntry_id env db version i o e hok]

/-- The concrete database used on the commit expansion scenario: object 1
is a commit whose root tree is object 2, a tree holding the two blobs 3
and 4; no object has a pre-compressed stored pack entry. -/
def genDb0 : Db :=
  ⟨fun i =>
    if i = 1 then some ⟨Kind.commit, [10, 11], [], 2⟩
    else if i = 2 then
      some ⟨Kind.tree, [20], [⟨"a", false, 3⟩, ⟨"b", false, 4⟩], 0⟩
    else if i = 3 then some ⟨Kind.blob, [30, 30], [], 0⟩
    else if i = 4 then some ⟨Kind.blob, [40], [], 0⟩
    else none,
   fun _ => none⟩

/-- A trivial environment: constant CRC and identity compression. -/
def genEnv0 : GenEnv := ⟨fun _ => 0, fun l => l⟩

/-- Claim C1 (evaluation at the failing input): expanding commit 1 in
TreeContents mode yields entries whose identifiers are [1, 1, 3, 4]: the
entry materialised from the root tree (object kind tree) carries the
identifier 1 of the commit, because the worker loop reuses the chunk
variable `id` after hopping from the commit to its tree, and the root
tree identifier 2 appears on no entry at all.  The claimed identifier set
would be the closure {1, 2, 3, 4} with the tree entry carrying 2. -/
theorem c1_tree_contents_commit_ids :
    (processChunk genEnv0 genDb0 Version.v2 ObjectExpansion.treeContents
        (fun l => l) 2 8 [1]).map
      (fun es => es.map (fun e => (e.id, e.object_kind))) =
      .ok [(1, Kind.commit), (1, Kind.tree), (3, Kind.blob), (4, Kind.blob)] ∧
    genDb0.find 1 = some ⟨Kind.commit, [10, 11], [], 2⟩ ∧
    (genDb0.find 2).map (fun o => o.kind) = some Kind.tree :=
  ⟨rfl, rfl, rfl⟩

/-- Counterexample to claim C2 as stated: the discovered objects are
emitted by iterating a std HashSet, whose iteration order is unspecified;
under the admissible enumeration that reverses the breadth-first
discovery order [3, 4] (a permutation of the set), the emitted identifier
sequence is [1, 1, 4, 3] and not the breadth-first [1, 1, 3, 4]. -/
theorem c2_bfs_order_counterexample :
    bfsRun (lookupTree genDb0 1 [⟨"a", false, 3⟩, ⟨"b", false, 4⟩]) 8 [1] []
      = .ok [3, 4] ∧
    List.Perm ([3, 4].reverse) [3, 4] ∧
    (processChunk genEnv0 genDb0 Version.v2 ObjectExpansion.treeContents
        (fun l => l.reverse) 2 8 [1]).map
      (fun es => es.map (fun e => e.id)) = .ok [1, 1, 4, 3] ∧
    ([1, 1, 4, 3] : List ObjectId) ≠ [1, 1, 3, 4] :=
  ⟨rfl, by decide, rfl, by decide⟩

/-- Claim C2 as amended: for a chunk holding one commit identifier, the
worker emits the entry of the commit first, then the entry materialised
from its root tree, followed by one entry for each object discovered by
the breadth-first walk, in the (unspecified) iteration order of the seen
hash set, which is some permutation of the discovered set - not
necessarily breadth-first order. -/
theorem c2_tree_contents_order (env : GenEnv) (db : Db) (version : Version)
    (enumSet : List ObjectId → List ObjectId) (fuelC fuelB : Nat)
    (cid : ObjectId) (cObj tObj : Obj) (objs : List ObjectId)
    (e1 e2 : OutEntry)
    (hfindC : db.find cid = some cObj) (hkindC : cObj.kind = Kind.commit)
    (hfindT : db.find cObj.commitTree = some tObj)
    (hkindT : tObj.kind = Kind.tree)
    (he1 : objToEntry env db version cid cObj = .ok e1)
    (he2 : objToEntry env db version cid tObj = .ok e2)
    (hbfs : bfsRun (lookupTree db cid tObj.treeEntries) fuelB [cid] []
      = .ok objs)
    (henum : (enumSet objs).Perm objs)
    (hemit : ∀ i ∈ objs, ∃ o e, db.find i = some o ∧
      objToEntry env db version i o = .ok e) :
    ∃ rest,
      processChunk env db version ObjectExpansion.treeContents enumSet
        (fuelC + 1) fuelB [cid] = .ok (e1 :: e2 :: rest) ∧
      rest.map (fun e => e.id) = enumSet objs ∧
      (rest.map (fun e => e.id)).Perm objs := by
  obtain ⟨rest, hrest, hmap⟩ :=
    emitDiscovered_ok env db version (enumSet objs)
      (fun i hi => hemit i (henum.mem_iff.mp hi))
  refine ⟨rest, ?_, hmap, by rw [hmap]; exact henum⟩
  unfold processChunk
  unfold treeContentsLoop
  simp only [hfindC, he1, hkindC, hfindT]
  unfold treeContentsLoop
  simp only [he2, hkindT, hbfs, hrest, processChunk, List.append_nil]

/-- Witness for C2 (amended) on the concrete commit/tree/two-blob
database, with the identity enumeration of the seen set. -/
theorem c2_tree_contents_order_witness :
    ∃ rest,
      processChunk genEnv0 genDb0 Version.v2 ObjectExpansion.treeContents
        (fun l => l) 2 8 [1] =
        .ok (⟨1, Kind.commit, OutKind.base, 2, [10, 11]⟩ ::
          ⟨1, Kind.tree, OutKind.base, 1, [20]⟩ :: rest) ∧
      rest.map (fun e => e.id) = [3, 4] ∧
      (rest.map (fun e => e.id)).Perm [3, 4] :=
  c2_tree_contents_order genEnv0 genDb0 Version.v2 (fun l => l) 1 8 1
    ⟨Kind.commit, [10, 11], [], 2⟩
    ⟨Kind.tree, [20], [⟨"a", false, 3⟩, ⟨"b", false, 4⟩], 0⟩ [3, 4]
    ⟨1, Kind.commit, OutKind.base, 2, [10, 11]⟩
    ⟨1, Kind.tree, OutKind.base, 1, [20]⟩
    rfl rfl rfl rfl rfl rfl rfl (List.Perm.refl _)
    (by
      intro i hi
      rcases (by simpa using hi : i = 3 ∨ i = 4) with rfl | rfl
      · exact ⟨⟨Kind.blob, [30, 30], [], 0⟩,
          ⟨3, Kind.blob, OutKind.base, 2, [30, 30]⟩, rfl, rfl⟩
      · exact ⟨⟨Kind.blob, [40], [], 0⟩,
          ⟨4, Kind.blob, OutKind.base, 1, [40]⟩, rfl, rfl⟩)

/-- Claim C5: on the pack-to-pack fast path (a stored entry of the target
version), a stored CRC that disagrees with the freshly computed CRC over
the stored bytes is a hard error; with an agreeing or absent CRC and a
stored base entry, the emitted base entry copies exactly the stored bytes
from the parsed payload offset onward. -/
theorem c5_pack_to_pack_copy (env : GenEnv) (db : Db) (version : Version)
    (id : ObjectId) (obj : Obj) (se : StoredEntry)
    (h1 : db.packEntry obj = some se) (h2 : se.version = version) :
    (∀ ex, se.crc32 = some ex → env.crc32 se.data ≠ ex →
      objToEntry env db version id obj =
        .error (.packToPackCopyCrc32Mismatch (env.crc32 se.data) ex)) ∧
    (∀ k, (se.crc32 = none ∨ se.crc32 = some (env.crc32 se.data)) →
      (entryFromBytes se.data).1 = ParsedHeader.base k →
      objToEntry env db version id obj =
        .ok ⟨id, k, OutKind.base, obj.data.length,
          se.data.drop (entryFromBytes se.data).2⟩) := by
  constructor
  · intro ex hex hne
    simp [objToEntry, h1, h2, hex, hne]
  · intro k hcrc hbase
    rcases hcrc with hnone | hsome
    · simp [objToEntry, h1, h2, hnone, objToEntryEmit, hbase]
    · simp [objToEntry, h1, h2, hsome, objToEntryEmit, hbase]

/-- The database and environment of the C5 witness: one stored pack entry
with blob header byte 52, payload [9, 9] and a wrong stored CRC of 7
against a computed CRC of 5. -/
def c5db : Db := ⟨fun _ => none, fun _ => some ⟨Version.v2, [52, 9, 9], some 7⟩⟩

def c5env : GenEnv := ⟨fun _ => 5, fun l => l⟩

/-- Witness for C5: the mismatching stored CRC is a hard error. -/
theorem c5_pack_to_pack_copy_witness :
    objToEntry c5env c5db Version.v2 11 ⟨Kind.blob, [9, 9], [], 0⟩ =
      .error (.packToPackCopyCrc32Mismatch 5 7) :=
  (c5_pack_to_pack_copy c5env c5db Version.v2 11 ⟨Kind.blob, [9, 9], [], 0⟩
    ⟨Version.v2, [52, 9, 9], some 7⟩ rfl rfl).1 7 rfl (by decide)

theorem processChunk_asIs_ok (env : GenEnv) (db : Db) (version : Version)
    (enumSet : List ObjectId → List ObjectId) (fuelC fuelB : Nat)
    (oids : List ObjectId)
    (h : ∀ id ∈ oids, ∃ o e, db.find id = some o ∧
      objToEntry env db version id o = .ok e) :
    ∃ out, processChunk env db version ObjectExpansion.asIs enumSet
        fuelC fuelB oids = .ok out ∧
      out.map (fun e => e.id) = oids := by
  induction oids with
  | nil => exact ⟨[], rfl, rfl⟩
  | cons i is ih =>
    obtain ⟨o, e, hfind, hok⟩ := h i (by simp)
    obtain ⟨out, hout, hmap⟩ := ih (fun j hj => h j (by simp [hj]))
    refine ⟨e :: out, ?_, ?_⟩
    · unfold processChunk
      simp only [hfind, hok, hout]
    · simp [hmap, objToEntry_id env db version i o e hok]

theorem processChunk_asIs_indep (env : GenEnv) (db : Db) (version : Version)
    (s1 s2 : List ObjectId → List ObjectId) (f1 b1 f2 b2 : Nat)
    (oids : List ObjectId) :
    processChunk env db version ObjectExpansion.asIs s1 f1 b1 oids =
      processChunk env db version ObjectExpansion.asIs s2 f2 b2 oids := by
  induction oids with
  | nil => rfl
  | cons i is ih =>
    unfold processChunk
    cases hf : db.find i with
    | none => rfl
    | some o =>
      cases ho : objToEntry env db version i o with
      | error e => simp only [ho]
      | ok e => simp only [ho, ih]

theorem processChunks_asIs_ok (env : GenEnv) (db : Db) (version : Version)
    (enumSet : List ObjectId → List ObjectId) (fuelC fuelB : Nat)
    (cs : List (List ObjectId))
    (h : ∀ c ∈ cs, ∀ id ∈ c, ∃ o e, db.find id = some o ∧
      objToEntry env db version id o = .ok e) :
    ∃ out, processChunks env db version ObjectExpansion.asIs enumSet
        fuelC fuelB cs = .ok out ∧
      out.map (fun e => e.id) = cs.flatten := by
  induction cs with
  | nil => exact ⟨[], rfl, rfl⟩
  | cons c cs ih =>
    obtain ⟨es, hes, hmapc⟩ :=
      processChunk_asIs_ok env db version enumSet fuelC fuelB c
        (h c (by simp))
    obtain ⟨out, hout, hmap⟩ := ih (fun d hd => h d (by simp [hd]))
    refine ⟨es ++ out, ?_, ?_⟩
    · unfold processChunks
      simp only [hes, hout]
    · simp [hmapc, hmap]

theorem processChunks_asIs_indep (env : GenEnv) (db : Db) (version : Version)
    (s1 s2 : List ObjectId → List ObjectId) (f1 b1 f2 b2 : Nat)
    (cs : List (List ObjectId)) :
    processChunks env db version ObjectExpansion.asIs s1 f1 b1 cs =
      processChunks env db version ObjectExpansion.asIs s2 f2 b2 cs := by
  induction cs with
  | nil => rfl
  | cons c cs ih =>
    unfold processChunks
    rw [processChunk_asIs_indep env db version s1 s2 f1 b1 f2 b2 c, ih]

/-- Claim C6: in AsIs mode, when every input identifier resolves in the
database (and materialises), the pipeline emits exactly one entry per
input identifier, in input order, each carrying its input identifier; no
graph walk is performed - the result does not depend on the traversal
machinery (set enumeration and walk bounds). -/
theorem c6_as_is_expansion (env : GenEnv) (db : Db) (version : Version)
    (enumSet : List ObjectId → List ObjectId) (fuelC fuelB chunkSize : Nat)
    (oids : List ObjectId)
    (hcs : 1 ≤ chunkSize) (hcs2 : chunkSize < usizeMod)
    (hfind : ∀ id ∈ oids, ∃ o e, db.find id = some o ∧
      objToEntry env db version id o = .ok e) :
    ∃ out, objectsToEntries env db version ObjectExpansion.asIs enumSet
        fuelC fuelB chunkSize oids = .ok out ∧
      out.length = oids.length ∧
      out.map (fun e => e.id) = oids ∧
      ∀ s2 f2 b2, objectsToEntries env db version ObjectExpansion.asIs s2
        f2 b2 chunkSize oids = .ok out := by
  have hflat := (chunksList_props chunkSize hcs hcs2 oids).2.2
  obtain ⟨out, hout, hmap⟩ :=
    processChunks_asIs_ok env db version enumSet fuelC fuelB
      (chunksList chunkSize oids)
      (fun c hc id hid =>
        hfind id (by rw [← hflat]; exact List.mem_flatten.mpr ⟨c, hc, hid⟩))
  rw [hflat] at hmap
  refine ⟨out, hout, ?_, hmap, ?_⟩
  · have := congrArg List.length hmap
    simpa using this
  · intro s2 f2 b2
    rw [objectsToEntries,
      processChunks_asIs_indep env db version s2 enumSet f2 b2 fuelC fuelB]
    exact hout

/-- Witness for C6: two blob identifiers (37 and 501, after the loose and
packed objects of the repository test fixtures) in AsIs mode. -/
theorem c6_as_is_expansion_witness :
    ∃ out, objectsToEntries genEnv0
        ⟨fun i => if i = 37 then some ⟨Kind.blob, [1], [], 0⟩
          else if i = 501 then some ⟨Kind.blob, [2, 2], [], 0⟩ else none,
         fun _ => none⟩
        Version.v2 ObjectExpansion.asIs (fun l => l) 0 0 10 [37, 501] =
        .ok out ∧
      out.length = 2 ∧
      out.map (fun e => e.id) = [37, 501] ∧
      ∀ s2 f2 b2, objectsToEntries genEnv0
        ⟨fun i => if i = 37 then some ⟨Kind.blob, [1], [], 0⟩
          else if i = 501 then some ⟨Kind.blob, [2, 2], [], 0⟩ else none,
         fun _ => none⟩
        Version.v2 ObjectExpansion.asIs s2 f2 b2 10 [37, 501] = .ok out := by
  have h := c6_as_is_expansion genEnv0
    ⟨fun i => if i = 37 then some ⟨Kind.blob, [1], [], 0⟩
      else if i = 501 then some ⟨Kind.blob, [2, 2], [], 0⟩ else none,
     fun _ => none⟩
    Version.v2 (fun l => l) 0 0 10 [37, 501] (by decide)
    (by norm_num [usizeMod])
    (by
      intro id hid
      rcases (by simpa using hid : id = 37 ∨ id = 501) with rfl | rfl
      · exact ⟨⟨Kind.blob, [1], [], 0⟩,
          ⟨37, Kind.blob, OutKind.base, 1, [1]⟩, rfl, rfl⟩
      · exact ⟨⟨Kind.blob, [2, 2], [], 0⟩,
          ⟨501, Kind.blob, OutKind.base, 2, [2, 2]⟩, rfl, rfl⟩)
  obtain ⟨out, h1, h2, h3, h4⟩ := h
  exact ⟨out, h1, by rw [h2]; rfl, h3, h4⟩


/-! ## Pack index construction (`git-odb/src/pack/index/write/mod.rs`) -/

/-- Pack index kinds (`pack::index::Kind`); only the default is written. -/
inductive IndexKind where
  | v1
  | v2
deriving DecidableEq, Repr

/-- The default index kind. -/
def IndexKind.default : IndexKind := IndexKind.v2

/-- The header of one pack data entry (`pack::data::Header`). -/
inductive PackHeader where
  | blob
  | tree
  | commit
  | tag
  | refDelta (base : ObjectId)
  | ofsDelta (baseDistance : Nat)
deriving DecidableEq, Repr

/-- `Header::to_kind`: the object kind of a base header. -/
def PackHeader.toKind : PackHeader → Option Kind
  | PackHeader.blob => some Kind.blob
  | PackHeader.tree => some Kind.tree
  | PackHeader.commit => some Kind.commit
  | PackHeader.tag => some Kind.tag
  | _ => none

def PackHeader.isBase (h : PackHeader) : Bool := h.toKind.isSome

/-- One entry of the input stream (`pack::data::iter::Entry`); the
decompressed bytes are dropped because the builder ignores them. -/
structure IterEntry where
  header : PackHeader
  pack_offset : Nat
  header_size : Nat
  compressed : List Nat
  decompressed_size : Nat
  trailer : Option ObjectId
deriving DecidableEq, Repr

/-- The node payload kind stored in the forest
(`index::write::types::ObjectKind`): a base with its object kind, or an
offset delta.  A reference delta has no representation here. -/
inductive TreeEntryKind where
  | base (k : Kind)
  | ofsDelta
deriving DecidableEq, Repr

/-- The node payload stored in the forest (`index::write::types::TreeEntry`):
a mutable identifier slot initialised to the null identifier, the kind,
and the CRC32 of the entry bytes. -/
structure TreeEntry where
  id : ObjectId
  kind : TreeEntryKind
  crc32 : Nat
deriving DecidableEq, Repr

/-- The error type of the index builder (`index::write::Error`).  The
constructors named in `write/mod.rs` are taken from there; the two tree
insertion errors are modelled from the spec (4.4: offsets unique, missing
parent is a hard error; the error table files them under the base-offset
invariant). -/
inductive IndexError where
  | unsupported (kind : IndexKind)
  | iteratorInvariantNoRefDelta
  | iteratorInvariantBaseOffset (packOffset baseDistance : Nat)
  | iteratorInvariantTooManyObjects (n : Nat)
  | iteratorInvariantBasesPresent
  | iteratorInvariantTrailer
  | treeDuplicateOffset (offset : Nat)
  | treeMissingParent (parentOffset childOffset : Nat)
deriving DecidableEq, Repr

/-- Modelled from the spec (4.4 delta tree): one forest node, keyed by
pack offset; children know only the parent offset at insertion time. -/
structure TreeNode where
  offset : Nat
  parent : Option Nat
  data : TreeEntry
deriving DecidableEq, Repr

/-- Modelled from the spec (4.4): the delta forest `pack::tree::Tree`,
kept as its node list in insertion order. -/
structure Tree where
  nodes : List TreeNode
deriving DecidableEq, Repr

/-- Modelled from the spec: `with_capacity` pre-sizes storage; the
capacity is an allocation hint with no observable effect. -/
def Tree.withCapacity (_n : Nat) : Tree := ⟨[]⟩

/-- Whether a node exists at the given pack offset. -/
def Tree.hasOffset (t : Tree) (o : Nat) : Bool :=
  t.nodes.any (fun n => n.offset = o)

/-- Modelled from the spec (4.4): `add_root` inserts a base; offsets must
be unique. -/
def Tree.addRoot (t : Tree) (offset : Nat) (e : TreeEntry) :
    Except IndexError Tree :=
  if t.hasOffset offset then .error (.treeDuplicateOffset offset)
  else .ok ⟨t.nodes ++ [⟨offset, none, e⟩]⟩

/-- Modelled from the spec (4.4): `add_child` inserts a delta whose parent
must already be present at exactly the parent offset, strictly below the
child offset; a missing parent is a hard error. -/
def Tree.addChild (t : Tree) (parentOffset childOffset : Nat)
    (e : TreeEntry) : Except IndexError Tree :=
  if t.hasOffset childOffset then .error (.treeDuplicateOffset childOffset)
  else if t.hasOffset parentOffset ∧ parentOffset < childOffset then
    .ok ⟨t.nodes ++ [⟨childOffset, some parentOffset, e⟩]⟩
  else .error (.treeMissingParent parentOffset childOffset)

/-- Modelled from the spec (4.5 ingest, boundary behaviors):
`Header::verified_base_pack_offset` computes parent offset = child offset
minus base distance, validated to be strictly less than the child offset
(so a distance of zero or a distance reaching at or past the entry start
is rejected). -/
def verifiedBasePackOffset (packOffset baseDistance : Nat) : Option Nat :=
  if 0 < baseDistance ∧ baseDistance < packOffset then
    some (packOffset - baseDistance)
  else none

/-- The byte-level helpers of ingest, abstracted: `crc32update` is the
incremental CRC32 (`git_features::hash::crc32_update`) and `headerBytes`
is the re-serialisation of a header for a given decompressed size
(`Header::to_write`); the builder only stores the resulting checksum, so
the claims hold for every choice of these functions. -/
structure CrcEnv where
  crc32update : Nat → List Nat → Nat
  headerBytes : PackHeader → Nat → List Nat

/-- One traversal result (`pack::tree::Item`): offset and resolved payload. -/
structure Item where
  offset : Nat
  data : TreeEntry
deriving DecidableEq, Repr

/-- The resolution phase, abstracted: `resolveId` is the identifier
computation a traversal callback performs for one node (`modify::base` and
`modify::child` hash the reconstructed object through the byte resolver),
and `encodeHash` is the index hash the encoder returns (`encode::to_write`).
Both are modelled from the spec (4.4 traversal contract, 4.6 encoder);
the claims hold for every choice. -/
structure ResolveEnv where
  resolveId : Nat → TreeEntry → ObjectId
  encodeHash : List Item → ObjectId → ObjectId

/-- The result record of `write_data_iter_to_stream` (`index::write::Outcome`). -/
structure Outcome where
  index_kind : IndexKind
  index_hash : ObjectId
  pack_hash : ObjectId
  num_objects : Nat
deriving DecidableEq, Repr

/-- The mutable state of the ingest loop of `write_data_iter_to_stream`:
object count, decompressed byte total, last seen trailer, index of the
last base entry, the forest, and the running end offset. -/
structure IngestState where
  numObjects : Nat
  bytesToProcess : Nat
  lastSeenTrailer : Option ObjectId
  lastBaseIndex : Option Nat
  tree : Tree
  packEntriesEnd : Nat
deriving DecidableEq, Repr

/-- The state before the first entry; the forest is created with the
iterator size hint as capacity. -/
def initialIngestState (capacity : Nat) : IngestState :=
  ⟨0, 0, none, none, Tree.withCapacity capacity, 0⟩

/-- The CRC32 of one entry: seed 0 over the re-serialised header bytes,
then updated with the compressed payload. -/
def entryCrc (env : CrcEnv) (e : IterEntry) : Nat :=
  env.crc32update
    (env.crc32update 0 (env.headerBytes e.header e.decompressed_size))
    e.compressed

/-- The base arm of the ingest loop: record a root and remember this
entry index as the last base; then update trailer, count and end offset. -/
def ingestBase (env : CrcEnv) (st : IngestState) (eid : Nat) (e : IterEntry)
    (k : Kind) : Except IndexError IngestState :=
  match st.tree.addRoot e.pack_offset ⟨0, TreeEntryKind.base k, entryCrc env e⟩ with
  | .error err => .error err
  | .ok t =>
    .ok ⟨st.numObjects + 1, st.bytesToProcess + e.decompressed_size,
      e.trailer, some eid, t,
      e.pack_offset + e.header_size + e.compressed.length⟩

/-- One iteration of the ingest loop of `write_data_iter_to_stream`:
bases become roots, a ref delta is rejected immediately, an offset delta
is inserted as a child of the node at its verified parent offset. -/
def ingestStep (env : CrcEnv) (st : IngestState) (eid : Nat) (e : IterEntry) :
    Except IndexError IngestState :=
  match e.header with
  | PackHeader.blob => ingestBase env st eid e Kind.blob
  | PackHeader.tree => ingestBase env st eid e Kind.tree
  | PackHeader.commit => ingestBase env st eid e Kind.commit
  | PackHeader.tag => ingestBase env st eid e Kind.tag
  | PackHeader.refDelta _ => .error .iteratorInvariantNoRefDelta
  | PackHeader.ofsDelta baseDistance =>
    match verifiedBasePackOffset e.pack_offset baseDistance with
    | none => .error (.iteratorInvariantBaseOffset e.pack_offset baseDistance)
    | some basePackOffset =>
      match st.tree.addChild basePackOffset e.pack_offset
          ⟨0, TreeEntryKind.ofsDelta, entryCrc env e⟩ with
      | .error err => .error err
      | .ok t =>
        .ok ⟨st.numObjects + 1, st.bytesToProcess + e.decompressed_size,
          e.trailer, st.lastBaseIndex, t,
          e.pack_offset + e.header_size + e.compressed.length⟩

/-- The ingest loop over the remaining entries, threading the state and
the running entry index. -/
def ingestFrom (env : CrcEnv) :
    IngestState → Nat → List IterEntry → Except IndexError IngestState
  | st, _, [] => .ok st
  | st, eid, e :: es =>
    match ingestStep env st eid e with
    | .error err => .error err
    | .ok st2 => ingestFrom env st2 (eid + 1) es

/-- Phase 1 of `write_data_iter_to_stream`: consume the whole entry
stream. -/
def ingest (env : CrcEnv) (entries : List IterEntry) :
    Except IndexError IngestState :=
  ingestFrom env (initialIngestState entries.length) 0 entries

/-- Modelled from the spec (4.4 traversal contract): the traversal visits
every base and, depth-first, every transitive child exactly once, and the
callbacks compute and store the identifier of every node, producing one
item per node.  The identifier computation is abstracted into
`resolveId`; the visit order is irrelevant here because the caller sorts
the items by identifier. -/
def Tree.traverse (res : ResolveEnv) (t : Tree) : List Item :=
  t.nodes.map (fun n =>
    ⟨n.offset, ⟨res.resolveId n.offset n.data, n.data.kind, n.data.crc32⟩⟩)

/-- Insertion step of the stable sort by identifier that models
`items.sort_by_key(|e| e.data.id)`. -/
def insertItem (a : Item) : List Item → List Item
  | [] => [a]
  | b :: bs => if a.data.id ≤ b.data.id then a :: b :: bs else b :: insertItem a bs

/-- Stable sort of the traversal items by identifier
(`sort_by_key(|e| e.data.id)`). -/
def sortItems : List Item → List Item
  | [] => []
  | a :: rest => insertItem a (sortItems rest)

/-- The function `write_data_iter_to_stream`: reject unsupported index
kinds, ingest the stream, check the count fits an unsigned 32-bit
integer, require a base, resolve and sort, require a trailer, encode and
return the outcome.  Resolution and encoding are pure here, so they are
applied in the success branch; the error results do not depend on the
resolve environment. -/
def writeDataIterToStream (cenv : CrcEnv) (renv : ResolveEnv)
    (kind : IndexKind) (entries : List IterEntry) :
    Except IndexError Outcome :=
  if kind ≠ IndexKind.default then .error (.unsupported kind)
  else
    match ingest cenv entries with
    | .error err => .error err
    | .ok st =>
      if 2 ^ 32 ≤ st.numObjects then
        .error (.iteratorInvariantTooManyObjects st.numObjects)
      else
        match st.lastBaseIndex with
        | none => .error .iteratorInvariantBasesPresent
        | some _ =>
          match st.lastSeenTrailer with
          | none => .error .iteratorInvariantTrailer
          | some packHash =>
            .ok ⟨kind,
              renv.encodeHash (sortItems (Tree.traverse renv st.tree)) packHash,
              packHash, st.numObjects⟩

/-- A trivial CRC environment for concrete runs. -/
def cenv0 : CrcEnv := ⟨fun _ _ => 0, fun _ _ => []⟩

/-- A resolve environment for concrete runs: the identifier of a node is
its pack offset and the index hash is the constant 5. -/
def renv0 : ResolveEnv := ⟨fun off _ => off, fun _ _ => 5⟩

theorem insertItem_length (a : Item) (l : List Item) :
    (insertItem a l).length = l.length + 1 := by
  induction l with
  | nil => rfl
  | cons b bs ih =>
    simp only [insertItem]
    split <;> simp [ih]

theorem sortItems_length (l : List Item) :
    (sortItems l).length = l.length := by
  induction l with
  | nil => rfl
  | cons a rest ih => simp [sortItems, insertItem_length, ih]

theorem mem_insertItem (x a : Item) (l : List Item) :
    x ∈ insertItem a l ↔ x = a ∨ x ∈ l := by
  induction l with
  | nil => simp [insertItem]
  | cons b bs ih =>
    simp only [insertItem]
    split
    · simp [List.mem_cons]
    · simp only [List.mem_cons, ih]
      tauto

theorem insertItem_sorted (a : Item) (l : List Item)
    (h : List.Sorted (fun x y : Item => x.data.id ≤ y.data.id) l) :
    List.Sorted (fun x y : Item => x.data.id ≤ y.data.id) (insertItem a l) := by
  induction l with
  | nil => simp [insertItem]
  | cons b bs ih =>
    rw [List.sorted_cons] at h
    obtain ⟨hb, hbs⟩ := h
    simp only [insertItem]
    split
    · next hab =>
      rw [List.sorted_cons]
      refine ⟨?_, ?_⟩
      · intro x hx
        rcases List.mem_cons.mp hx with rfl | hx
        · exact hab
        · exact le_trans hab (hb x hx)
      · rw [List.sorted_cons]
        exact ⟨hb, hbs⟩
    · next hab =>
      rw [List.sorted_cons]
      refine ⟨?_, ih hbs⟩
      intro x hx
      rcases (mem_insertItem x a bs).mp hx with rfl | hx
      · exact Nat.le_of_not_le hab
      · exact hb x hx

theorem sortItems_sorted (l : List Item) :
    List.Sorted (fun x y : Item => x.data.id ≤ y.data.id) (sortItems l) := by
  induction l with
  | nil => simp [sortItems]
  | cons a rest ih => exact insertItem_sorted a _ ih

theorem Tree.addRoot_ok (t t2 : Tree) (offset : Nat) (e : TreeEntry)
    (h : t.addRoot offset e = .ok t2) :
    t2.nodes = t.nodes ++ [⟨offset, none, e⟩] := by
  unfold Tree.addRoot at h
  split at h
  · simp at h
  · obtain rfl := Except.ok.inj h
    rfl

theorem Tree.addChild_ok (t t2 : Tree) (po co : Nat) (e : TreeEntry)
    (h : t.addChild po co e = .ok t2) :
    t2.nodes = t.nodes ++ [⟨co, some po, e⟩] := by
  unfold Tree.addChild at h
  split at h
  · simp at h
  · split at h
    · obtain rfl := Except.ok.inj h
      rfl
    · simp at h

theorem ingestBase_ok (env : CrcEnv) (st st2 : IngestState) (eid : Nat)
    (e : IterEntry) (k : Kind) (h : ingestBase env st eid e k = .ok st2) :
    st2.numObjects = st.numObjects + 1 ∧
    st2.tree.nodes.length = st.tree.nodes.length + 1 ∧
    st2.lastSeenTrailer = e.trailer := by
  unfold ingestBase at h
  cases hr : st.tree.addRoot e.pack_offset
      ⟨0, TreeEntryKind.base k, entryCrc env e⟩ with
  | error err => rw [hr] at h; simp at h
  | ok t =>
    rw [hr] at h
    obtain rfl := Except.ok.inj h
    exact ⟨rfl, by simp [Tree.addRoot_ok _ _ _ _ hr], rfl⟩

theorem ingestStep_ok (env : CrcEnv) (st st2 : IngestState) (eid : Nat)
    (e : IterEntry) (h : ingestStep env st eid e = .ok st2) :
    st2.numObjects = st.numObjects + 1 ∧
    st2.tree.nodes.length = st.tree.nodes.length + 1 ∧
    st2.lastSeenTrailer = e.trailer := by
  cases hh : e.header with
  | blob =>
    exact ingestBase_ok env st st2 eid e Kind.blob
      (by simpa only [ingestStep, hh] using h)
  | tree =>
    exact ingestBase_ok env st st2 eid e Kind.tree
      (by simpa only [ingestStep, hh] using h)
  | commit =>
    exact ingestBase_ok env st st2 eid e Kind.commit
      (by simpa only [ingestStep, hh] using h)
  | tag =>
    exact ingestBase_ok env st st2 eid e Kind.tag
      (by simpa only [ingestStep, hh] using h)
  | refDelta b =>
    simp only [ingestStep, hh] at h
    simp at h
  | ofsDelta d =>
    simp only [ingestStep, hh] at h
    cases hv : verifiedBasePackOffset e.pack_offset d with
    | none => simp only [hv] at h; simp at h
    | some po =>
      simp only [hv] at h
      cases hc : st.tree.addChild po e.pack_offset
          ⟨0, TreeEntryKind.ofsDelta, entryCrc env e⟩ with
      | error err => simp only [hc] at h; simp at h
      | ok t =>
        simp only [hc] at h
        obtain rfl := Except.ok.inj h
        exact ⟨rfl, by simp [Tree.addChild_ok _ _ _ _ _ hc], rfl⟩

theorem ingestFrom_ok (env : CrcEnv) (es : List IterEntry) :
    ∀ (st : IngestState) (eid : Nat) (st2 : IngestState),
    ingestFrom env st eid es = .ok st2 →
    st2.numObjects = st.numObjects + es.length ∧
    st2.tree.nodes.length = st.tree.nodes.length + es.length ∧
    (es = [] → st2 = st) ∧
    (∀ last, es.getLast? = some last → st2.lastSeenTrailer = last.trailer) := by
  induction es with
  | nil =>
    intro st eid st2 h
    unfold ingestFrom at h
    obtain rfl : st = st2 := by simpa using h
    simp
  | cons e es ih =>
    intro st eid st2 h
    unfold ingestFrom at h
    cases hs : ingestStep env st eid e with
    | error err => rw [hs] at h; simp at h
    | ok st1 =>
      rw [hs] at h
      obtain ⟨h1, h2, h3⟩ := ingestStep_ok env st st1 eid e hs
      obtain ⟨g1, g2, g3, g4⟩ := ih st1 (eid + 1) st2 h
      refine ⟨by simp only [List.length_cons]; omega,
        by simp only [List.length_cons]; omega, by simp, ?_⟩
      intro last hlast
      cases hes : es with
      | nil =>
        subst hes
        simp at hlast
        subst hlast
        rw [g3 rfl, h3]
      | cons f fs =>
        subst hes
        exact g4 last (by simpa using hlast)

theorem ingest_ok (env : CrcEnv) (entries : List IterEntry)
    (st : IngestState) (h : ingest env entries = .ok st) :
    st.numObjects = entries.length ∧
    st.tree.nodes.length = entries.length ∧
    (entries = [] → st = initialIngestState entries.length) ∧
    (∀ last, entries.getLast? = some last →
      st.lastSeenTrailer = last.trailer) := by
  obtain ⟨h1, h2, h3, h4⟩ :=
    ingestFrom_ok env entries (initialIngestState entries.length) 0 st h
  exact ⟨by simpa [initialIngestState] using h1,
    by simpa [initialIngestState, Tree.withCapacity] using h2,
    fun he => (h3 he).trans (by rw [he]), h4⟩

theorem writeData_ok_inv (cenv : CrcEnv) (renv : ResolveEnv)
    (entries : List IterEntry) (o : Outcome)
    (h : writeDataIterToStream cenv renv IndexKind.default entries = .ok o) :
    ∃ st, ingest cenv entries = .ok st ∧ st.numObjects < 2 ^ 32 ∧
      st.lastBaseIndex.isSome ∧ st.lastSeenTrailer = some o.pack_hash ∧
      o.num_objects = st.numObjects := by
  unfold writeDataIterToStream at h
  rw [if_neg (by simp)] at h
  cases hi : ingest cenv entries with
  | error err => simp only [hi] at h; simp at h
  | ok st =>
    simp only [hi] at h
    refine ⟨st, rfl, ?_⟩
    split at h
    · simp at h
    · next hlt =>
      cases hb : st.lastBaseIndex with
      | none => simp only [hb] at h; simp at h
      | some i =>
        simp only [hb] at h
        cases ht : st.lastSeenTrailer with
        | none => simp only [ht] at h; simp at h
        | some ph =>
          simp only [ht] at h
          obtain rfl := Except.ok.inj h
          exact ⟨by omega, by simp, rfl, rfl⟩


/-- Whether a header is a reference delta. -/
def PackHeader.isRefDelta : PackHeader → Bool
  | PackHeader.refDelta _ => true
  | _ => false

/-- Claim C3: for every error-free stream accepted by
`write_data_iter_to_stream`, the identifier list of the sorted items is
sorted ascending and has one identifier per consumed entry, and
`Outcome.num_objects` equals the number of entries consumed; a stream
whose length does not fit an unsigned 32-bit integer is instead rejected
with the too-many-objects error (after an error-free ingest). -/
theorem c3_sorted_index :
    (∀ (cenv : CrcEnv) (renv : ResolveEnv) (entries : List IterEntry)
      (o : Outcome),
      writeDataIterToStream cenv renv IndexKind.default entries = .ok o →
      ∃ st, ingest cenv entries = .ok st ∧
        List.Sorted (· ≤ ·)
          ((sortItems (Tree.traverse renv st.tree)).map
            (fun i => i.data.id)) ∧
        (sortItems (Tree.traverse renv st.tree)).length = entries.length ∧
        o.num_objects = entries.length) ∧
    (∀ (cenv : CrcEnv) (renv : ResolveEnv) (entries : List IterEntry)
      (st : IngestState),
      ingest cenv entries = .ok st → 2 ^ 32 ≤ entries.length →
      writeDataIterToStream cenv renv IndexKind.default entries =
        .error (.iteratorInvariantTooManyObjects entries.length)) := by
  constructor
  · intro cenv renv entries o h
    obtain ⟨st, hi, hlt, hbase, htr, hnum⟩ :=
      writeData_ok_inv cenv renv entries o h
    obtain ⟨n1, n2, _, _⟩ := ingest_ok cenv entries st hi
    refine ⟨st, hi, ?_, ?_, by omega⟩
    · have hs := sortItems_sorted (Tree.traverse renv st.tree)
      simpa [List.Sorted, List.pairwise_map] using hs
    · rw [sortItems_length]
      simp [Tree.traverse, n2]
  · intro cenv renv entries st hi hge
    obtain ⟨n1, _, _, _⟩ := ingest_ok cenv entries st hi
    unfold writeDataIterToStream
    rw [if_neg (by simp)]
    simp only [hi]
    rw [if_pos (by omega), n1]

/-- Witness for C3 on a one-base-entry stream. -/
theorem c3_sorted_index_witness :
    ∃ st, ingest cenv0 [⟨PackHeader.blob, 12, 3, [7], 1, some 99⟩] = .ok st ∧
      List.Sorted (· ≤ ·)
        ((sortItems (Tree.traverse renv0 st.tree)).map (fun i => i.data.id)) ∧
      (sortItems (Tree.traverse renv0 st.tree)).length = 1 ∧
      (⟨IndexKind.v2, 5, 99, 1⟩ : Outcome).num_objects = 1 :=
  c3_sorted_index.1 cenv0 renv0 [⟨PackHeader.blob, 12, 3, [7], 1, some 99⟩]
    ⟨IndexKind.v2, 5, 99, 1⟩ rfl

/-- Claim C7: on success, `Outcome.pack_hash` equals the trailer carried
by the last entry of the consumed stream; when ingest succeeds with at
least one base and an in-range count but the last entry carried no
trailer, the builder fails with the trailer-invariant error instead of
producing an index. -/
theorem c7_pack_trailer :
    (∀ (cenv : CrcEnv) (renv : ResolveEnv) (entries : List IterEntry)
      (o : Outcome),
      writeDataIterToStream cenv renv IndexKind.default entries = .ok o →
      ∃ last, entries.getLast? = some last ∧
        last.trailer = some o.pack_hash) ∧
    (∀ (cenv : CrcEnv) (renv : ResolveEnv) (entries : List IterEntry)
      (st : IngestState),
      ingest cenv entries = .ok st → st.lastBaseIndex.isSome →
      st.numObjects < 2 ^ 32 → st.lastSeenTrailer = none →
      writeDataIterToStream cenv renv IndexKind.default entries =
        .error .iteratorInvariantTrailer) := by
  constructor
  · intro cenv renv entries o h
    obtain ⟨st, hi, hlt, hbase, htr, hnum⟩ :=
      writeData_ok_inv cenv renv entries o h
    obtain ⟨_, _, hinit, hlastc⟩ := ingest_ok cenv entries st hi
    cases hl : entries.getLast? with
    | none =>
      have hnil : entries = [] := by simpa using hl
      exfalso
      rw [hinit hnil] at hbase
      simp [initialIngestState] at hbase
    | some last =>
      refine ⟨last, rfl, ?_⟩
      have hlast := hlastc last hl
      rw [hlast] at htr
      exact htr
  · intro cenv renv entries st hi hbase hlt htr
    unfold writeDataIterToStream
    rw [if_neg (by simp)]
    simp only [hi]
    rw [if_neg (by omega)]
    cases hb : st.lastBaseIndex with
    | none => rw [hb] at hbase; simp at hbase
    | some i => simp only [hb, htr]

/-- Witness for C7: a single base entry without a trailer. -/
theorem c7_pack_trailer_witness :
    writeDataIterToStream cenv0 renv0 IndexKind.default
      [⟨PackHeader.blob, 12, 3, [7], 1, none⟩] =
      .error .iteratorInvariantTrailer :=
  c7_pack_trailer.2 cenv0 renv0 [⟨PackHeader.blob, 12, 3, [7], 1, none⟩]
    ⟨1, 1, none, some 0,
      ⟨[⟨12, none, ⟨0, TreeEntryKind.base Kind.blob, 0⟩⟩]⟩, 16⟩
    rfl rfl (by norm_num) rfl

/-- The ingest loop processes an appended stream by processing the first
part and continuing from its resulting state. -/
theorem ingestFrom_append (env : CrcEnv) (pre rest : List IterEntry) :
    ∀ (st : IngestState) (eid : Nat),
    ingestFrom env st eid (pre ++ rest) =
      match ingestFrom env st eid pre with
      | .error err => .error err
      | .ok st1 => ingestFrom env st1 (eid + pre.length) rest := by
  induction pre with
  | nil => intro st eid; simp [ingestFrom]
  | cons e es ih =>
    intro st eid
    simp only [List.cons_append, ingestFrom]
    cases hs : ingestStep env st eid e with
    | error err => rfl
    | ok st1 =>
      show ingestFrom env st1 (eid + 1) (es ++ rest) =
        match ingestFrom env st1 (eid + 1) es with
        | .error err => .error err
        | .ok st2 => ingestFrom env st2 (eid + (e :: es).length) rest
      rw [ih st1 (eid + 1)]
      cases ingestFrom env st1 (eid + 1) es with
      | error err => rfl
      | ok st2 =>
        have harith : eid + 1 + es.length = eid + (e :: es).length := by
          simp only [List.length_cons]
          omega
        rw [harith]

/-- Claim C4 as amended: a stream carrying a reference-delta header at
any position, all of whose earlier entries ingest without error, is
rejected with the no-ref-delta error during ingest, whatever the resolve
environment (the resolver is never consulted); no reference delta is ever
inserted into the forest (the node payload type has no such case). -/
theorem c4_ref_delta_rejected (cenv : CrcEnv) (pre post : List IterEntry)
    (e : IterEntry) (b : ObjectId) (st : IngestState)
    (hpre : ingestFrom cenv (initialIngestState (pre ++ e :: post).length) 0
      pre = .ok st)
    (href : e.header = PackHeader.refDelta b) :
    ∀ renv : ResolveEnv,
      writeDataIterToStream cenv renv IndexKind.default (pre ++ e :: post) =
        .error .iteratorInvariantNoRefDelta := by
  intro renv
  have hing : ingest cenv (pre ++ e :: post) =
      .error .iteratorInvariantNoRefDelta := by
    unfold ingest
    rw [ingestFrom_append cenv pre (e :: post)]
    simp only [hpre]
    unfold ingestFrom
    simp only [ingestStep, href]
  unfold writeDataIterToStream
  rw [if_neg (by simp)]
  simp only [hing]

/-- Witness for C4 (amended): a base entry followed by a ref delta. -/
theorem c4_ref_delta_rejected_witness :
    writeDataIterToStream cenv0 renv0 IndexKind.default
      [⟨PackHeader.blob, 12, 3, [7], 1, some 99⟩,
       ⟨PackHeader.refDelta 5, 40, 3, [8], 1, some 99⟩] =
      .error .iteratorInvariantNoRefDelta :=
  c4_ref_delta_rejected cenv0 [⟨PackHeader.blob, 12, 3, [7], 1, some 99⟩] []
    ⟨PackHeader.refDelta 5, 40, 3, [8], 1, some 99⟩ 5
    ⟨1, 1, some 99, some 0,
      ⟨[⟨12, none, ⟨0, TreeEntryKind.base Kind.blob, 0⟩⟩]⟩, 16⟩
    rfl rfl renv0

/-- Counterexample to claim C4 as stated: a stream whose first entry is
an offset delta with an invalid base distance and whose second entry is a
reference delta fails with the base-offset error of the first entry, not
with the no-ref-delta error. -/
theorem c4_counterexample :
    ([⟨PackHeader.ofsDelta 20, 12, 3, [7], 1, some 99⟩,
      ⟨PackHeader.refDelta 5, 40, 3, [8], 1, some 99⟩] :
        List IterEntry).any (fun e => e.header.isRefDelta) = true ∧
    writeDataIterToStream cenv0 renv0 IndexKind.default
      [⟨PackHeader.ofsDelta 20, 12, 3, [7], 1, some 99⟩,
       ⟨PackHeader.refDelta 5, 40, 3, [8], 1, some 99⟩] =
      .error (.iteratorInvariantBaseOffset 12 20) ∧
    IndexError.iteratorInvariantBaseOffset 12 20 ≠
      IndexError.iteratorInvariantNoRefDelta :=
  ⟨rfl, rfl, by decide⟩

/-- Claim C8 as amended: a stream that ingests without error and contains
no base entry is necessarily empty, and it fails after ingest with the
bases-present error; a nonempty stream without bases already fails during
ingest at its first entry with a different error. -/
theorem c8_no_bases (cenv : CrcEnv) (renv : ResolveEnv)
    (entries : List IterEntry) (st : IngestState)
    (hing : ingest cenv entries = .ok st)
    (hnb : ∀ e ∈ entries, e.header.isBase = false) :
    entries = [] ∧
    writeDataIterToStream cenv renv IndexKind.default entries =
      .error .iteratorInvariantBasesPresent := by
  have hnil : entries = [] := by
    cases hent : entries with
    | nil => rfl
    | cons e rest =>
      exfalso
      subst hent
      have hb := hnb e (by simp)
      unfold ingest ingestFrom at hing
      cases hh : e.header with
      | blob => simp [PackHeader.isBase, PackHeader.toKind, hh] at hb
      | tree => simp [PackHeader.isBase, PackHeader.toKind, hh] at hb
      | commit => simp [PackHeader.isBase, PackHeader.toKind, hh] at hb
      | tag => simp [PackHeader.isBase, PackHeader.toKind, hh] at hb
      | refDelta bb =>
        simp only [ingestStep, hh] at hing
        simp at hing
      | ofsDelta d =>
        simp only [ingestStep, hh] at hing
        cases hv : verifiedBasePackOffset e.pack_offset d with
        | none => simp only [hv] at hing; simp at hing
        | some po =>
          simp only [hv] at hing
          have haddc : (initialIngestState (e :: rest).length).tree.addChild
              po e.pack_offset ⟨0, TreeEntryKind.ofsDelta, entryCrc cenv e⟩ =
              .error (.treeMissingParent po e.pack_offset) := by
            simp [initialIngestState, Tree.withCapacity, Tree.addChild,
              Tree.hasOffset]
          simp only [haddc] at hing
          simp at hing
  subst hnil
  exact ⟨rfl, rfl⟩

/-- Witness for C8 (amended): the empty stream. -/
theorem c8_no_bases_witness :
    writeDataIterToStream cenv0 renv0 IndexKind.default [] =
      .error .iteratorInvariantBasesPresent :=
  (c8_no_bases cenv0 renv0 [] (initialIngestState 0) rfl (by simp)).2

/-- Counterexample to claim C8 as stated: a nonempty stream without any
base entry (one offset delta with an invalid distance) fails with the
base-offset error, not with the bases-present error. -/
theorem c8_counterexample :
    ([⟨PackHeader.ofsDelta 20, 12, 3, [7], 1, some 99⟩] :
        List IterEntry).all (fun e => !e.header.isBase) = true ∧
    writeDataIterToStream cenv0 renv0 IndexKind.default
      [⟨PackHeader.ofsDelta 20, 12, 3, [7], 1, some 99⟩] =
      .error (.iteratorInvariantBaseOffset 12 20) ∧
    IndexError.iteratorInvariantBaseOffset 12 20 ≠
      IndexError.iteratorInvariantBasesPresent :=
  ⟨rfl, rfl, by decide⟩

end Gitoxide
